import Mathlib

/-!
Shallow embedding of `lib/protoparser/native/streamparser.go` (VictoriaMetrics
native-import stream parser).  Byte streams are finite lists of naturals
(each entry a byte value); `io.ReadFull` over the buffered reader becomes
`readFull`; the reader loop, the decode-worker loop, the work-item pool and
the observability counters are modelled as explicit state passing.  The
external decoders (`storage.MetricName.UnmarshalNoAccountIDProjectID`,
`storage.Block.UnmarshalPortable`) are parameters of the model (the parser
treats their payloads as opaque), and the decoded-row time filter
(`AppendRowsWithTimeRangeFilter`) and the fixed-width big-endian integer
codecs (`encoding.UnmarshalUint32`, `encoding.UnmarshalInt64`) are modelled
from the spec since their sources are not part of this tree.
-/

namespace Native

/-- Outcome kinds of `io.ReadFull` on a finite stream: `eof` when not a single
byte could be read, `unexpectedEOF` when the stream ended after at least one
byte but before the requested count. -/
inductive ReadErr where
  | eof
  | unexpectedEOF
deriving DecidableEq

/-- Model of `io.ReadFull(br, buf)` with `n = len(buf)` on a stream holding the
byte list `s`: on success it yields the `n` bytes read and the remaining
stream.  Reading zero bytes always succeeds, matching `io.ReadFull` on an
empty buffer. -/
def readFull (n : Nat) (s : List Nat) : Except ReadErr (List Nat × List Nat) :=
  if n ≤ s.length then Except.ok (s.take n, s.drop n)
  else if s.length = 0 then Except.error ReadErr.eof
  else Except.error ReadErr.unexpectedEOF

/-- Big-endian accumulation of a byte list into a natural number. -/
def beNat (bs : List Nat) : Nat :=
  bs.foldl (fun acc x => acc * 256 + x % 256) 0

/-- Modelled from the spec: `encoding.UnmarshalUint32` (source not in this
tree) decodes a fixed-width 4-byte big-endian unsigned integer. -/
def unmarshalUint32 (bs : List Nat) : Nat :=
  beNat (bs.take 4)

/-- Modelled from the spec: `encoding.UnmarshalInt64` (source not in this
tree) decodes a fixed-width 8-byte big-endian two's-complement integer. -/
def unmarshalInt64 (bs : List Nat) : Int :=
  let v := beNat (bs.take 8)
  if v < 2 ^ 63 then (v : Int) else (v : Int) - 2 ^ 64

/-- Model of `storage.TimeRange`: the inclusive timestamp window of a stream. -/
structure TimeRange where
  minTimestamp : Int
  maxTimestamp : Int
deriving DecidableEq

/-- Model of the decoded `Block`: a metric identity (kept as the opaque value
produced by the external metric-name decoder) plus the (timestamp, value)
rows.  Values are opaque tokens, since the parser never inspects them. -/
structure Block where
  metricName : List Nat
  rows : List (Int × Nat)
deriving DecidableEq

/-- Model of `Block.reset`: both row slices truncated to zero length and the
metric name cleared. -/
def Block.resetB (_ : Block) : Block :=
  { metricName := [], rows := [] }

/-- Model of `unmarshalWork`: the pooled work item carrying one record's raw
metric-name bytes, raw block bytes and decoded block. -/
structure UnmarshalWork where
  metricNameBuf : List Nat
  blockBuf : List Nat
  block : Block
deriving DecidableEq

/-- Model of `unmarshalWork.reset`: buffers truncated to zero length, block
reset. -/
def UnmarshalWork.resetW (uw : UnmarshalWork) : UnmarshalWork :=
  { metricNameBuf := [], blockBuf := [], block := uw.block.resetB }

/-- The six observability counters of the parser. -/
structure Counters where
  readCalls : Nat
  readErrors : Nat
  rowsRead : Nat
  blocksRead : Nat
  parseErrors : Nat
  processErrors : Nat
deriving DecidableEq

def Counters.incReadCalls (c : Counters) : Counters :=
  ⟨c.readCalls + 1, c.readErrors, c.rowsRead, c.blocksRead, c.parseErrors, c.processErrors⟩

def Counters.incReadErrors (c : Counters) : Counters :=
  ⟨c.readCalls, c.readErrors + 1, c.rowsRead, c.blocksRead, c.parseErrors, c.processErrors⟩

def Counters.addRowsRead (c : Counters) (n : Nat) : Counters :=
  ⟨c.readCalls, c.readErrors, c.rowsRead + n, c.blocksRead, c.parseErrors, c.processErrors⟩

def Counters.incBlocksRead (c : Counters) : Counters :=
  ⟨c.readCalls, c.readErrors, c.rowsRead, c.blocksRead + 1, c.parseErrors, c.processErrors⟩

def Counters.incParseErrors (c : Counters) : Counters :=
  ⟨c.readCalls, c.readErrors, c.rowsRead, c.blocksRead, c.parseErrors + 1, c.processErrors⟩

def Counters.incProcessErrors (c : Counters) : Counters :=
  ⟨c.readCalls, c.readErrors, c.rowsRead, c.blocksRead, c.parseErrors, c.processErrors + 1⟩

/-- Model of the `sync.Pool` of work items, together with bookkeeping of how
many `getUnmarshalWork` and `putUnmarshalWork` calls this stream made. -/
structure PoolState where
  freeList : List UnmarshalWork
  acquired : Nat
  released : Nat
deriving DecidableEq

/-- Model of `getUnmarshalWork`: pop a pooled item, or allocate a fresh one
when the pool is empty. -/
def getUnmarshalWork (p : PoolState) : UnmarshalWork × PoolState :=
  match p.freeList with
  | [] => (⟨[], [], ⟨[], []⟩⟩, ⟨[], p.acquired + 1, p.released⟩)
  | w :: ws => (w, ⟨ws, p.acquired + 1, p.released⟩)

/-- Model of `putUnmarshalWork`: reset the item, then return it to the pool. -/
def putUnmarshalWork (uw : UnmarshalWork) (p : PoolState) : PoolState :=
  ⟨uw.resetW :: p.freeList, p.acquired, p.released + 1⟩

/-- The two decoders external to the parser; the parser hands them opaque byte
strings.  `unmarshalMetricName` models
`storage.MetricName.UnmarshalNoAccountIDProjectID` (failure = `none`);
`unmarshalPortable` models `storage.Block.UnmarshalPortable`, yielding the
decoded (timestamp, value) rows together with the unconsumed tail. -/
structure Decoder where
  unmarshalMetricName : List Nat → Option (List Nat)
  unmarshalPortable : List Nat → Option (List (Int × Nat) × List Nat)

/-- Kinds of fatal errors `ParseStream` can return. -/
inductive FatalKind where
  | streamRead
  | protocolLimit
deriving DecidableEq

/-- Outcome of one iteration of the reader loop body:
`done` = clean end-of-stream at the first length read (return nil),
`fatal` = abort with a fatal error, `next` = one record read, carrying its
two payloads and the remaining stream. -/
inductive RecResult where
  | done
  | fatal (k : FatalKind)
  | next (nameBuf blockBuf rest : List Nat)
deriving DecidableEq

/-- One iteration of the reader loop of `ParseStream` (streamparser.go lines
85-127): read the metric-name length and payload, then the block length and
payload, enforcing the 1 MiB ceiling on each declared length and updating the
counters exactly as the source does. -/
def readRecord (s : List Nat) (c : Counters) : RecResult × Counters :=
  match readFull 4 s with
  | Except.error ReadErr.eof => (RecResult.done, c)
  | Except.error ReadErr.unexpectedEOF => (RecResult.fatal FatalKind.streamRead, c.incReadErrors)
  | Except.ok (szb, s1) =>
    let c1 := c.incReadCalls
    let bufSize := unmarshalUint32 szb
    if bufSize > 1024 * 1024 then (RecResult.fatal FatalKind.protocolLimit, c1.incParseErrors)
    else
      match readFull bufSize s1 with
      | Except.error _ => (RecResult.fatal FatalKind.streamRead, c1.incReadErrors)
      | Except.ok (nameBuf, s2) =>
        let c2 := c1.incReadCalls
        match readFull 4 s2 with
        | Except.error _ => (RecResult.fatal FatalKind.streamRead, c2.incReadErrors)
        | Except.ok (szb2, s3) =>
          let c3 := c2.incReadCalls
          let bufSize2 := unmarshalUint32 szb2
          if bufSize2 > 1024 * 1024 then (RecResult.fatal FatalKind.protocolLimit, c3.incParseErrors)
          else
            match readFull bufSize2 s3 with
            | Except.error _ => (RecResult.fatal FatalKind.streamRead, c3.incReadErrors)
            | Except.ok (blockBuf, s4) =>
              let c4 := c3.incReadCalls.incBlocksRead
              (RecResult.next nameBuf blockBuf s4, c4)

/-- Aggregate result of the reader loop: the returned error (`none` = nil),
the work items enqueued to the work channel in order, and the final counter
and pool states. -/
structure ReadOut where
  res : Option FatalKind
  works : List UnmarshalWork
  counters : Counters
  pool : PoolState
deriving DecidableEq

/-- Fuel-indexed reader loop: each iteration first acquires a work item from
the pool (as the source does at the top of the loop), then reads one record.
The fuel only serves termination; `readLoop` supplies enough of it. -/
def readLoopF : Nat → List Nat → Counters → PoolState → ReadOut
  | 0, _, c, p => ⟨some FatalKind.streamRead, [], c, p⟩
  | fuel + 1, s, c, p =>
    let gw := getUnmarshalWork p
    match readRecord s c with
    | (RecResult.done, c2) => ⟨none, [], c2, gw.2⟩
    | (RecResult.fatal k, c2) => ⟨some k, [], c2, gw.2⟩
    | (RecResult.next nb bb rest, c2) =>
      let w : UnmarshalWork := ⟨nb, bb, gw.1.block⟩
      let o := readLoopF fuel rest c2 gw.2
      ⟨o.res, w :: o.works, o.counters, o.pool⟩

/-- The reader loop of `ParseStream` on stream `s`: every successfully read
record consumes at least 8 bytes, so `s.length + 1` fuel always suffices. -/
def readLoop (s : List Nat) (c : Counters) (p : PoolState) : ReadOut :=
  readLoopF (s.length + 1) s c p

/-- Model of `unmarshalWork.unmarshal` (streamparser.go lines 167-182):
decode the metric name, decode the block payload, reject a non-empty tail,
then keep only the rows whose timestamp lies in the inclusive time range
(the filter models `AppendRowsWithTimeRangeFilter` from the spec, its source
being outside this tree).  `none` is the non-fatal decode error. -/
def unmarshal (D : Decoder) (tr : TimeRange) (nameBuf blockBuf : List Nat) : Option Block :=
  match D.unmarshalMetricName nameBuf with
  | none => none
  | some mn =>
    match D.unmarshalPortable blockBuf with
    | none => none
    | some (rows, tail) =>
      if tail.length > 0 then none
      else
        some ⟨mn, rows.filter fun r =>
          decide (tr.minTimestamp ≤ r.1) && decide (r.1 ≤ tr.maxTimestamp)⟩

/-- Aggregate result of the decode workers: the blocks passed to the sink
callback, in processing order, and the final counter and pool states. -/
structure ProcOut where
  invocations : List Block
  counters : Counters
  pool : PoolState
deriving DecidableEq

/-- Sequential model of the decode-worker loop (streamparser.go lines 59-77)
draining the enqueued work items: a decode failure increments the parse-error
counter and drops the record; a successful decode adds the surviving row
count to the rows-read counter (done inside `unmarshal` in the source) and
invokes the callback; a callback failure increments the process-error
counter; on every branch the work item is reset and returned to the pool. -/
def processItems (D : Decoder) (cb : Block → Bool) (tr : TimeRange) :
    List UnmarshalWork → Counters → PoolState → ProcOut
  | [], c, p => ⟨[], c, p⟩
  | uw :: rest, c, p =>
    match unmarshal D tr uw.metricNameBuf uw.blockBuf with
    | none =>
      processItems D cb tr rest c.incParseErrors (putUnmarshalWork uw p)
    | some b =>
      let c1 := c.addRowsRead b.rows.length
      let uw1 : UnmarshalWork := ⟨uw.metricNameBuf, uw.blockBuf, b⟩
      let c2 := if cb b then c1 else c1.incProcessErrors
      let o := processItems D cb tr rest c2 (putUnmarshalWork uw1 p)
      ⟨b :: o.invocations, o.counters, o.pool⟩

/-- Aggregate result of one `ParseStream` call: the returned error (`none` =
nil), the blocks passed to the callback, and the final counter and pool
states. -/
structure RunOut where
  res : Option FatalKind
  invocations : List Block
  counters : Counters
  pool : PoolState
deriving DecidableEq

/-- Time range decoded from the first 16 bytes of the stream: first 8 bytes
give the minimum timestamp, the next 8 the maximum. -/
def trOf (s : List Nat) : TimeRange :=
  ⟨unmarshalInt64 (s.take 8), unmarshalInt64 ((s.drop 8).take 8)⟩

/-- Body of `ParseStream` after the header was read: run the reader loop on
the remaining stream, then let the workers drain every enqueued item (the
deferred `close(workCh); wg.Wait()` guarantees they all finish before the
call returns). -/
def runBody (D : Decoder) (cb : Block → Bool) (tr : TimeRange) (body : List Nat)
    (c : Counters) (p : PoolState) : RunOut :=
  let ro := readLoop body c p
  let po := processItems D cb tr ro.works ro.counters ro.pool
  ⟨ro.res, po.invocations, po.counters, po.pool⟩

/-- Model of `ParseStream` (streamparser.go lines 25-129) on an uncompressed
body: read the 16-byte time-range header (any failure there, including a
clean end-of-stream, increments the read-error counter and is fatal), then
run the reader loop and the workers. -/
def parseStream (D : Decoder) (cb : Block → Bool) (s : List Nat)
    (c : Counters) (p : PoolState) : RunOut :=
  match readFull 16 s with
  | Except.error _ => ⟨some FatalKind.streamRead, [], c.incReadErrors, p⟩
  | Except.ok (_, body) => runBody D cb (trOf s) body c p

/-- Big-endian 4-byte encoding of a frame length, for building test streams. -/
def encodeU32 (n : Nat) : List Nat :=
  [n / 16777216 % 256, n / 65536 % 256, n / 256 % 256, n % 256]

/-- Wire encoding of one record: metric-name frame then block-data frame,
each a 4-byte length followed by that many payload bytes. -/
def encodeRecord (nb bb : List Nat) : List Nat :=
  encodeU32 nb.length ++ nb ++ encodeU32 bb.length ++ bb

/-- Wire encoding of a sequence of records. -/
def encodeRecords : List (List Nat × List Nat) → List Nat
  | [] => []
  | pr :: rest => encodeRecord pr.1 pr.2 ++ encodeRecords rest

/-- Counter update performed by one successful record read: four read calls
and one block read. -/
def bumpRecord (c : Counters) : Counters :=
  ((((c.incReadCalls).incReadCalls).incReadCalls).incReadCalls).incBlocksRead

/-- Pool state after `k` acquisitions with no releases in between. -/
def dropPool (p : PoolState) (k : Nat) : PoolState :=
  ⟨p.freeList.drop k, p.acquired + k, p.released⟩

/-- Every item sitting in the pool's free list is fully reset. -/
def allReset (p : PoolState) : Prop :=
  ∀ w ∈ p.freeList, w.metricNameBuf = [] ∧ w.blockBuf = [] ∧ w.block = ⟨[], []⟩

/-- Zero-valued counters, for concrete runs. -/
def c0 : Counters := ⟨0, 0, 0, 0, 0, 0⟩

/-- Empty pool, for concrete runs. -/
def p0 : PoolState := ⟨[], 0, 0⟩

/-- Decoder whose metric-name decode echoes its input and whose block decode
yields no rows and an empty tail. -/
def D0 : Decoder := ⟨fun nb => some nb, fun _ => some ([], [])⟩

/-- Decoder whose block decode leaves one unconsumed trailing byte. -/
def Dtail : Decoder := ⟨fun nb => some nb, fun _ => some ([], [7])⟩

/-- Decoder whose metric-name decode always fails. -/
def Dfail : Decoder := ⟨fun _ => none, fun _ => some ([], [])⟩

/-- Decoder whose block decode yields three rows with timestamps 900, 1500
and 2500. -/
def Dtriple : Decoder :=
  ⟨fun nb => some nb, fun _ => some ([(900, 1), (1500, 2), (2500, 3)], [])⟩

/-- Callback that accepts every block. -/
def cbT : Block → Bool := fun _ => true

/-- Callback that rejects every block. -/
def cbF : Block → Bool := fun _ => false

/-- Sixteen zero bytes: the header of a stream whose time range is [0, 0]. -/
def hdr0 : List Nat := List.replicate 16 0

/-- Header bytes declaring the time range [1000, 2000]. -/
def hdrR : List Nat :=
  [0, 0, 0, 0, 0, 0, 3, 232, 0, 0, 0, 0, 0, 0, 7, 208]

/-- Two small well-formed frame-pairs, for concrete runs. -/
def ps4 : List (List Nat × List Nat) := [([1], [2]), ([3], [4])]

/-- Concrete stream: range [1000, 2000] header followed by one record. -/
def s5 : List Nat := hdrR ++ encodeRecord [99] [1]

theorem readFull_of_le {n : Nat} {s : List Nat} (h : n ≤ s.length) :
    readFull n s = Except.ok (s.take n, s.drop n) := by
  simp [readFull, h]

theorem readFull_eof {n : Nat} {s : List Nat} (h0 : s.length = 0) (hn : 0 < n) :
    readFull n s = Except.error ReadErr.eof := by
  simp [readFull, h0]
  omega

theorem readFull_trunc {n : Nat} {s : List Nat} (h0 : 0 < s.length) (hn : s.length < n) :
    readFull n s = Except.error ReadErr.unexpectedEOF := by
  have h1 : ¬ n ≤ s.length := by omega
  have h2 : ¬ s.length = 0 := by omega
  unfold readFull
  rw [if_neg h1, if_neg h2]

theorem readFull_ok {n : Nat} {s b r : List Nat}
    (h : readFull n s = Except.ok (b, r)) :
    b = s.take n ∧ r = s.drop n ∧ n ≤ s.length := by
  by_cases hle : n ≤ s.length
  · rw [readFull_of_le hle] at h
    refine ⟨?_, ?_, hle⟩ <;> cases h <;> rfl
  · unfold readFull at h
    rw [if_neg hle] at h
    by_cases h0 : s.length = 0 <;> simp [h0] at h

theorem readFull_append {l r : List Nat} {n : Nat} (h : l.length = n) :
    readFull n (l ++ r) = Except.ok (l, r) := by
  have hle : n ≤ (l ++ r).length := by
    simp [List.length_append]
    omega
  rw [readFull_of_le hle]
  rw [List.take_left' h, List.drop_left' h]

theorem encodeU32_length (n : Nat) : (encodeU32 n).length = 4 := rfl

theorem unmarshalUint32_encodeU32 {n : Nat} (h : n < 4294967296) :
    unmarshalUint32 (encodeU32 n) = n := by
  simp [unmarshalUint32, encodeU32, beNat, List.foldl]
  omega

theorem unmarshalUint32_take (s : List Nat) :
    unmarshalUint32 (s.take 4) = unmarshalUint32 s := by
  simp [unmarshalUint32, List.take_take]

theorem readFull_err {n : Nat} {s : List Nat} (h : s.length < n) :
    ∃ e, readFull n s = Except.error e := by
  by_cases h0 : s.length = 0
  · exact ⟨_, readFull_eof h0 (by omega)⟩
  · exact ⟨_, readFull_trunc (by omega) h⟩

theorem readRecord_nil (c : Counters) : readRecord [] c = (RecResult.done, c) := rfl

theorem readRecord_short {s : List Nat} (c : Counters) (h0 : s ≠ [])
    (h4 : s.length < 4) :
    readRecord s c = (RecResult.fatal FatalKind.streamRead, c.incReadErrors) := by
  have hl : 0 < s.length := List.length_pos.mpr h0
  simp [readRecord, readFull_trunc hl h4]

theorem readRecord_oversize1 {s : List Nat} (c : Counters) (h4 : 4 ≤ s.length)
    (hL : 1024 * 1024 < unmarshalUint32 s) :
    readRecord s c = (RecResult.fatal FatalKind.protocolLimit, c.incReadCalls.incParseErrors) := by
  have h : unmarshalUint32 (s.take 4) > 1024 * 1024 := by
    rw [unmarshalUint32_take]; omega
  simp [readRecord, readFull_of_le h4, h]

theorem readRecord_trunc_name {s : List Nat} (c : Counters) (h4 : 4 ≤ s.length)
    (hL : unmarshalUint32 s ≤ 1024 * 1024) (ht : s.length < 4 + unmarshalUint32 s) :
    readRecord s c = (RecResult.fatal FatalKind.streamRead, c.incReadCalls.incReadErrors) := by
  have hn : ¬ (unmarshalUint32 (s.take 4) > 1024 * 1024) := by
    rw [unmarshalUint32_take]; omega
  obtain ⟨e, he⟩ := readFull_err (n := unmarshalUint32 (s.take 4)) (s := s.drop 4)
    (by rw [List.length_drop, unmarshalUint32_take]; omega)
  simp [readRecord, readFull_of_le h4, hn, he]

theorem readRecord_trunc_size2 {s : List Nat} (c : Counters) (h4 : 4 ≤ s.length)
    (hL : unmarshalUint32 s ≤ 1024 * 1024) (hname : 4 + unmarshalUint32 s ≤ s.length)
    (ht : s.length < 4 + unmarshalUint32 s + 4) :
    readRecord s c =
      (RecResult.fatal FatalKind.streamRead, c.incReadCalls.incReadCalls.incReadErrors) := by
  have hn : ¬ (unmarshalUint32 (s.take 4) > 1024 * 1024) := by
    rw [unmarshalUint32_take]; omega
  have h2 : readFull (unmarshalUint32 (s.take 4)) (s.drop 4) =
      Except.ok ((s.drop 4).take (unmarshalUint32 (s.take 4)),
                 (s.drop 4).drop (unmarshalUint32 (s.take 4))) :=
    readFull_of_le (by rw [List.length_drop, unmarshalUint32_take]; omega)
  obtain ⟨e, he⟩ := readFull_err (n := 4) (s := s.drop (4 + unmarshalUint32 (s.take 4)))
    (by rw [List.length_drop, unmarshalUint32_take]; omega)
  simp [readRecord, readFull_of_le h4, hn, h2, he]

theorem readRecord_oversize2 {s : List Nat} (c : Counters) (h4 : 4 ≤ s.length)
    (hL : unmarshalUint32 s ≤ 1024 * 1024) (hfit : 4 + unmarshalUint32 s + 4 ≤ s.length)
    (hL2 : 1024 * 1024 < unmarshalUint32 (s.drop (4 + unmarshalUint32 s))) :
    readRecord s c =
      (RecResult.fatal FatalKind.protocolLimit,
       c.incReadCalls.incReadCalls.incReadCalls.incParseErrors) := by
  have hn : ¬ (unmarshalUint32 (s.take 4) > 1024 * 1024) := by
    rw [unmarshalUint32_take]; omega
  have h2 : readFull (unmarshalUint32 (s.take 4)) (s.drop 4) =
      Except.ok ((s.drop 4).take (unmarshalUint32 (s.take 4)),
                 (s.drop 4).drop (unmarshalUint32 (s.take 4))) :=
    readFull_of_le (by rw [List.length_drop, unmarshalUint32_take]; omega)
  have h3 : readFull 4 (s.drop (4 + unmarshalUint32 (s.take 4))) =
      Except.ok ((s.drop (4 + unmarshalUint32 (s.take 4))).take 4,
                 (s.drop (4 + unmarshalUint32 (s.take 4))).drop 4) :=
    readFull_of_le (by rw [List.length_drop, unmarshalUint32_take]; omega)
  have hL2c : unmarshalUint32 ((s.drop (4 + unmarshalUint32 (s.take 4))).take 4) >
      1024 * 1024 := by
    rw [unmarshalUint32_take, unmarshalUint32_take]; omega
  simp [readRecord, readFull_of_le h4, hn, h2, h3, hL2c]

theorem readRecord_trunc_block {s : List Nat} (c : Counters) (h4 : 4 ≤ s.length)
    (hL : unmarshalUint32 s ≤ 1024 * 1024) (hfit : 4 + unmarshalUint32 s + 4 ≤ s.length)
    (hL2 : unmarshalUint32 (s.drop (4 + unmarshalUint32 s)) ≤ 1024 * 1024)
    (ht : s.length < 4 + unmarshalUint32 s + 4 + unmarshalUint32 (s.drop (4 + unmarshalUint32 s))) :
    readRecord s c =
      (RecResult.fatal FatalKind.streamRead,
       c.incReadCalls.incReadCalls.incReadCalls.incReadErrors) := by
  have hn : ¬ (unmarshalUint32 (s.take 4) > 1024 * 1024) := by
    rw [unmarshalUint32_take]; omega
  have h2 : readFull (unmarshalUint32 (s.take 4)) (s.drop 4) =
      Except.ok ((s.drop 4).take (unmarshalUint32 (s.take 4)),
                 (s.drop 4).drop (unmarshalUint32 (s.take 4))) :=
    readFull_of_le (by rw [List.length_drop, unmarshalUint32_take]; omega)
  have h3 : readFull 4 (s.drop (4 + unmarshalUint32 (s.take 4))) =
      Except.ok ((s.drop (4 + unmarshalUint32 (s.take 4))).take 4,
                 (s.drop (4 + unmarshalUint32 (s.take 4))).drop 4) :=
    readFull_of_le (by rw [List.length_drop, unmarshalUint32_take]; omega)
  have hn2 : ¬ (unmarshalUint32 ((s.drop (4 + unmarshalUint32 (s.take 4))).take 4) >
      1024 * 1024) := by
    rw [unmarshalUint32_take, unmarshalUint32_take]; omega
  obtain ⟨e, he⟩ := readFull_err
    (n := unmarshalUint32 ((s.drop (4 + unmarshalUint32 (s.take 4))).take 4))
    (s := s.drop (4 + unmarshalUint32 (s.take 4) + 4))
    (by simp only [List.length_drop, unmarshalUint32_take]; omega)
  simp [readRecord, readFull_of_le h4, hn, h2, h3, hn2, he]

theorem readRecord_record (nb bb rest : List Nat) (c : Counters)
    (h1 : nb.length ≤ 1024 * 1024) (h2 : bb.length ≤ 1024 * 1024) :
    readRecord (encodeRecord nb bb ++ rest) c = (RecResult.next nb bb rest, bumpRecord c) := by
  have e1 : readFull 4 (encodeRecord nb bb ++ rest) =
      Except.ok (encodeU32 nb.length, nb ++ (encodeU32 bb.length ++ (bb ++ rest))) := by
    rw [show encodeRecord nb bb ++ rest =
        encodeU32 nb.length ++ (nb ++ (encodeU32 bb.length ++ (bb ++ rest))) from by
      simp [encodeRecord]]
    exact readFull_append (encodeU32_length _)
  have hu1 : unmarshalUint32 (encodeU32 nb.length) = nb.length :=
    unmarshalUint32_encodeU32 (by omega)
  have e2 : readFull nb.length (nb ++ (encodeU32 bb.length ++ (bb ++ rest))) =
      Except.ok (nb, encodeU32 bb.length ++ (bb ++ rest)) := readFull_append rfl
  have e3 : readFull 4 (encodeU32 bb.length ++ (bb ++ rest)) =
      Except.ok (encodeU32 bb.length, bb ++ rest) := readFull_append (encodeU32_length _)
  have hu2 : unmarshalUint32 (encodeU32 bb.length) = bb.length :=
    unmarshalUint32_encodeU32 (by omega)
  have e4 : readFull bb.length (bb ++ rest) = Except.ok (bb, rest) := readFull_append rfl
  have hn1 : ¬ (nb.length > 1024 * 1024) := by omega
  have hn2 : ¬ (bb.length > 1024 * 1024) := by omega
  simp [readRecord, e1, hu1, e2, e3, hu2, e4, hn1, hn2, bumpRecord]

theorem readRecord_next_length {s : List Nat} {c : Counters} {nb bb rest : List Nat}
    {c2 : Counters} (h : readRecord s c = (RecResult.next nb bb rest, c2)) :
    rest.length < s.length := by
  unfold readRecord at h
  cases h4 : readFull 4 s with
  | error e =>
    rw [h4] at h
    cases e <;> simp at h
  | ok pr =>
    obtain ⟨szb, s1⟩ := pr
    obtain ⟨-, hs1, hlen⟩ := readFull_ok h4
    rw [h4] at h
    simp only at h
    by_cases hsz : unmarshalUint32 szb > 1024 * 1024
    · rw [if_pos hsz] at h
      simp at h
    · rw [if_neg hsz] at h
      cases h5 : readFull (unmarshalUint32 szb) s1 with
      | error e =>
        rw [h5] at h
        simp at h
      | ok pr2 =>
        obtain ⟨nbuf, s2⟩ := pr2
        obtain ⟨-, hs2, hlen2⟩ := readFull_ok h5
        rw [h5] at h
        simp only at h
        cases h6 : readFull 4 s2 with
        | error e =>
          rw [h6] at h
          simp at h
        | ok pr3 =>
          obtain ⟨szb2, s3⟩ := pr3
          obtain ⟨-, hs3, hlen3⟩ := readFull_ok h6
          rw [h6] at h
          simp only at h
          by_cases hsz2 : unmarshalUint32 szb2 > 1024 * 1024
          · rw [if_pos hsz2] at h
            simp at h
          · rw [if_neg hsz2] at h
            cases h7 : readFull (unmarshalUint32 szb2) s3 with
            | error e =>
              rw [h7] at h
              simp at h
            | ok pr4 =>
              obtain ⟨bbuf, s4⟩ := pr4
              obtain ⟨-, hs4, hlen4⟩ := readFull_ok h7
              rw [h7] at h
              simp only at h
              obtain ⟨h1, -⟩ := Prod.mk.injEq .. ▸ h
              cases h1
              subst hs1 hs2 hs3 hs4
              simp only [List.length_drop] at *
              omega

theorem readLoopF_eq_of_lt (f1 : Nat) :
    ∀ (f2 : Nat) (s : List Nat) (c : Counters) (p : PoolState),
      s.length < f1 → s.length < f2 → readLoopF f1 s c p = readLoopF f2 s c p := by
  induction f1 with
  | zero => intro f2 s c p h1 _; omega
  | succ a ih =>
    intro f2 s c p h1 h2
    match f2, h2 with
    | b + 1, h2 =>
      cases hr : readRecord s c with
      | mk r c2 =>
        cases r with
        | done => simp only [readLoopF, hr]
        | fatal k => simp only [readLoopF, hr]
        | next nb bb rest =>
          have hlen := readRecord_next_length hr
          simp only [readLoopF, hr]
          rw [ih b rest c2 (getUnmarshalWork p).2 (by omega) (by omega)]

theorem readLoop_eq (s : List Nat) (c : Counters) (p : PoolState) :
    readLoop s c p =
      match readRecord s c with
      | (RecResult.done, c2) => ⟨none, [], c2, (getUnmarshalWork p).2⟩
      | (RecResult.fatal k, c2) => ⟨some k, [], c2, (getUnmarshalWork p).2⟩
      | (RecResult.next nb bb rest, c2) =>
        let o := readLoop rest c2 (getUnmarshalWork p).2
        ⟨o.res, ⟨nb, bb, (getUnmarshalWork p).1.block⟩ :: o.works, o.counters, o.pool⟩ := by
  cases hr : readRecord s c with
  | mk r c2 =>
    cases r with
    | done => simp only [readLoop, readLoopF, hr]
    | fatal k => simp only [readLoop, readLoopF, hr]
    | next nb bb rest =>
      have hlen := readRecord_next_length hr
      show readLoopF (s.length + 1) s c p = _
      simp only [readLoopF, hr]
      rw [readLoopF_eq_of_lt s.length (rest.length + 1) rest c2 (getUnmarshalWork p).2
        (by omega) (by omega)]
      rfl

theorem readLoop_done {s : List Nat} {c c2 : Counters} (p : PoolState)
    (h : readRecord s c = (RecResult.done, c2)) :
    readLoop s c p = ⟨none, [], c2, (getUnmarshalWork p).2⟩ := by
  rw [readLoop_eq, h]

theorem readLoop_fatal {s : List Nat} {c c2 : Counters} {k : FatalKind} (p : PoolState)
    (h : readRecord s c = (RecResult.fatal k, c2)) :
    readLoop s c p = ⟨some k, [], c2, (getUnmarshalWork p).2⟩ := by
  rw [readLoop_eq, h]

theorem readLoop_cons {s : List Nat} {c c2 : Counters} {nb bb rest : List Nat} (p : PoolState)
    (h : readRecord s c = (RecResult.next nb bb rest, c2)) :
    readLoop s c p =
      ⟨(readLoop rest c2 (getUnmarshalWork p).2).res,
       ⟨nb, bb, (getUnmarshalWork p).1.block⟩ :: (readLoop rest c2 (getUnmarshalWork p).2).works,
       (readLoop rest c2 (getUnmarshalWork p).2).counters,
       (readLoop rest c2 (getUnmarshalWork p).2).pool⟩ := by
  rw [readLoop_eq, h]

theorem getUnmarshalWork_snd (p : PoolState) : (getUnmarshalWork p).2 = dropPool p 1 := by
  cases hf : p.freeList <;> simp [getUnmarshalWork, dropPool, hf]

theorem getUnmarshalWork_block {p : PoolState} (h : allReset p) :
    (getUnmarshalWork p).1.block = ⟨[], []⟩ := by
  cases hf : p.freeList with
  | nil => simp [getUnmarshalWork, hf]
  | cons w ws =>
    have := h w (by rw [hf]; exact List.mem_cons_self w ws)
    simp [getUnmarshalWork, hf, this.2.2]

theorem dropPool_dropPool (p : PoolState) (a b : Nat) :
    dropPool (dropPool p a) b = dropPool p (a + b) := by
  simp [dropPool]
  omega

theorem dropPool_zero (p : PoolState) : dropPool p 0 = p := by
  simp [dropPool]

theorem allReset_dropPool {p : PoolState} (h : allReset p) (k : Nat) :
    allReset (dropPool p k) := by
  intro w hw
  exact h w (List.mem_of_mem_drop hw)

theorem readLoop_record (nb bb rest : List Nat) (c : Counters) (p : PoolState)
    (h1 : nb.length ≤ 1024 * 1024) (h2 : bb.length ≤ 1024 * 1024) :
    readLoop (encodeRecord nb bb ++ rest) c p =
      ⟨(readLoop rest (bumpRecord c) (dropPool p 1)).res,
       ⟨nb, bb, (getUnmarshalWork p).1.block⟩ ::
         (readLoop rest (bumpRecord c) (dropPool p 1)).works,
       (readLoop rest (bumpRecord c) (dropPool p 1)).counters,
       (readLoop rest (bumpRecord c) (dropPool p 1)).pool⟩ := by
  rw [readLoop_cons p (readRecord_record nb bb rest c h1 h2), getUnmarshalWork_snd]

theorem readLoop_encodeRecords (ps : List (List Nat × List Nat)) (tail : List Nat)
    (c : Counters) (p : PoolState)
    (hps : ∀ pr ∈ ps, pr.1.length ≤ 1024 * 1024 ∧ pr.2.length ≤ 1024 * 1024)
    (hreset : allReset p) :
    readLoop (encodeRecords ps ++ tail) c p =
      ⟨(readLoop tail (bumpRecord^[ps.length] c) (dropPool p ps.length)).res,
       ps.map (fun pr => (⟨pr.1, pr.2, ⟨[], []⟩⟩ : UnmarshalWork)) ++
         (readLoop tail (bumpRecord^[ps.length] c) (dropPool p ps.length)).works,
       (readLoop tail (bumpRecord^[ps.length] c) (dropPool p ps.length)).counters,
       (readLoop tail (bumpRecord^[ps.length] c) (dropPool p ps.length)).pool⟩ := by
  induction ps generalizing c p with
  | nil =>
    simp [encodeRecords, dropPool_zero]
  | cons pr ps ih =>
    have hpr := hps pr (List.mem_cons_self pr ps)
    have hrest : ∀ q ∈ ps, q.1.length ≤ 1024 * 1024 ∧ q.2.length ≤ 1024 * 1024 :=
      fun q hq => hps q (List.mem_cons_of_mem pr hq)
    rw [show encodeRecords (pr :: ps) ++ tail =
        encodeRecord pr.1 pr.2 ++ (encodeRecords ps ++ tail) from by
      simp [encodeRecords]]
    rw [readLoop_record pr.1 pr.2 _ c p hpr.1 hpr.2]
    rw [ih (bumpRecord c) (dropPool p 1) hrest (allReset_dropPool hreset 1)]
    rw [getUnmarshalWork_block hreset]
    simp [dropPool_dropPool, Function.iterate_succ_apply, List.length_cons]
    rw [show 1 + ps.length = ps.length + 1 from by omega]
    exact ⟨rfl, rfl, rfl, rfl⟩

theorem unmarshal_some_rows {D : Decoder} {tr : TimeRange} {nb bb : List Nat} {b : Block}
    (h : unmarshal D tr nb bb = some b) :
    ∀ r ∈ b.rows, tr.minTimestamp ≤ r.1 ∧ r.1 ≤ tr.maxTimestamp := by
  intro r hr
  unfold unmarshal at h
  cases hm : D.unmarshalMetricName nb with
  | none => rw [hm] at h; cases h
  | some mn =>
    rw [hm] at h
    cases hp : D.unmarshalPortable bb with
    | none => rw [hp] at h; cases h
    | some pr =>
      obtain ⟨rows, tail⟩ := pr
      rw [hp] at h
      simp only at h
      by_cases ht : tail.length > 0
      · rw [if_pos ht] at h; cases h
      · rw [if_neg ht] at h
        cases h
        simp only [List.mem_filter, Bool.and_eq_true, decide_eq_true_eq] at hr
        exact hr.2

theorem unmarshal_eq_filter {D : Decoder} (tr : TimeRange) {nb bb mn : List Nat}
    {rows : List (Int × Nat)} (hm : D.unmarshalMetricName nb = some mn)
    (hp : D.unmarshalPortable bb = some (rows, [])) :
    unmarshal D tr nb bb =
      some ⟨mn, rows.filter fun r =>
        decide (tr.minTimestamp ≤ r.1) && decide (r.1 ≤ tr.maxTimestamp)⟩ := by
  simp [unmarshal, hm, hp]

theorem unmarshal_none_of_tail {D : Decoder} (tr : TimeRange) {nb bb mn : List Nat}
    {rows : List (Int × Nat)} {tail : List Nat} (hm : D.unmarshalMetricName nb = some mn)
    (hp : D.unmarshalPortable bb = some (rows, tail)) (ht : tail ≠ []) :
    unmarshal D tr nb bb = none := by
  have hl : tail.length > 0 := List.length_pos.mpr ht
  simp [unmarshal, hm, hp, hl]

theorem processItems_invocations (D : Decoder) (cb : Block → Bool) (tr : TimeRange)
    (ws : List UnmarshalWork) (c : Counters) (p : PoolState) :
    (processItems D cb tr ws c p).invocations =
      ws.filterMap (fun w => unmarshal D tr w.metricNameBuf w.blockBuf) := by
  induction ws generalizing c p with
  | nil => rfl
  | cons uw rest ih =>
    cases hu : unmarshal D tr uw.metricNameBuf uw.blockBuf with
    | none => simp [processItems, hu, ih, List.filterMap_cons]
    | some b => simp [processItems, hu, ih, List.filterMap_cons]

theorem allReset_put {p : PoolState} (h : allReset p) (uw : UnmarshalWork) :
    allReset (putUnmarshalWork uw p) := by
  intro w hw
  cases hw with
  | head => exact ⟨rfl, rfl, rfl⟩
  | tail _ hw => exact h w hw

theorem processItems_pool (D : Decoder) (cb : Block → Bool) (tr : TimeRange)
    (ws : List UnmarshalWork) (c : Counters) (p : PoolState) :
    (processItems D cb tr ws c p).pool.released = p.released + ws.length ∧
    (processItems D cb tr ws c p).pool.acquired = p.acquired ∧
    (allReset p → allReset (processItems D cb tr ws c p).pool) := by
  induction ws generalizing c p with
  | nil => exact ⟨rfl, rfl, fun h => h⟩
  | cons uw rest ih =>
    cases hu : unmarshal D tr uw.metricNameBuf uw.blockBuf with
    | none =>
      have := ih c.incParseErrors (putUnmarshalWork uw p)
      simp only [processItems, hu] at *
      refine ⟨?_, ?_, ?_⟩
      · rw [this.1]; simp [putUnmarshalWork]; omega
      · rw [this.2.1]; rfl
      · exact fun h => this.2.2 (allReset_put h uw)
    | some b =>
      have := ih (if cb b then c.addRowsRead b.rows.length
                  else (c.addRowsRead b.rows.length).incProcessErrors)
        (putUnmarshalWork ⟨uw.metricNameBuf, uw.blockBuf, b⟩ p)
      simp only [processItems, hu] at *
      refine ⟨?_, ?_, ?_⟩
      · rw [this.1]; simp [putUnmarshalWork]; omega
      · rw [this.2.1]; rfl
      · exact fun h => this.2.2 (allReset_put h _)

theorem readLoop_pool_aux (n : Nat) :
    ∀ (s : List Nat) (c : Counters) (p : PoolState), s.length ≤ n →
      (readLoop s c p).pool.acquired = p.acquired + (readLoop s c p).works.length + 1 ∧
      (readLoop s c p).pool.released = p.released ∧
      (allReset p → allReset (readLoop s c p).pool) := by
  induction n with
  | zero =>
    intro s c p h
    have hs : s = [] := List.eq_nil_of_length_eq_zero (by omega)
    subst hs
    rw [readLoop_done p (readRecord_nil c), getUnmarshalWork_snd]
    exact ⟨by simp [dropPool], by simp [dropPool], fun h => allReset_dropPool h 1⟩
  | succ a ih =>
    intro s c p h
    cases hr : readRecord s c with
    | mk r c2 =>
      cases r with
      | done =>
        rw [readLoop_done p hr, getUnmarshalWork_snd]
        exact ⟨by simp [dropPool], by simp [dropPool], fun h => allReset_dropPool h 1⟩
      | fatal k =>
        rw [readLoop_fatal p hr, getUnmarshalWork_snd]
        exact ⟨by simp [dropPool], by simp [dropPool], fun h => allReset_dropPool h 1⟩
      | next nb bb rest =>
        have hlen := readRecord_next_length hr
        rw [readLoop_cons p hr]
        have hih := ih rest c2 (getUnmarshalWork p).2 (by omega)
        refine ⟨?_, ?_, ?_⟩
        · show (readLoop rest c2 (getUnmarshalWork p).2).pool.acquired = _
          rw [hih.1, getUnmarshalWork_snd]
          simp [dropPool, List.length_cons]
          omega
        · show (readLoop rest c2 (getUnmarshalWork p).2).pool.released = _
          rw [hih.2.1, getUnmarshalWork_snd]
          simp [dropPool]
        · intro hres
          exact hih.2.2 (getUnmarshalWork_snd p ▸ allReset_dropPool hres 1)

theorem readLoop_pool (s : List Nat) (c : Counters) (p : PoolState) :
    (readLoop s c p).pool.acquired = p.acquired + (readLoop s c p).works.length + 1 ∧
    (readLoop s c p).pool.released = p.released ∧
    (allReset p → allReset (readLoop s c p).pool) :=
  readLoop_pool_aux s.length s c p (Nat.le_refl _)

theorem parseStream_short {s : List Nat} (D : Decoder) (cb : Block → Bool)
    (c : Counters) (p : PoolState) (h : s.length < 16) :
    parseStream D cb s c p = ⟨some FatalKind.streamRead, [], c.incReadErrors, p⟩ := by
  obtain ⟨e, he⟩ := readFull_err h
  simp [parseStream, he]

theorem parseStream_ok {s : List Nat} (D : Decoder) (cb : Block → Bool)
    (c : Counters) (p : PoolState) (h : 16 ≤ s.length) :
    parseStream D cb s c p = runBody D cb (trOf s) (s.drop 16) c p := by
  simp [parseStream, readFull_of_le h]

theorem runBody_res (D : Decoder) (cb : Block → Bool) (tr : TimeRange) (body : List Nat)
    (c : Counters) (p : PoolState) :
    (runBody D cb tr body c p).res = (readLoop body c p).res := rfl

theorem runBody_invocations (D : Decoder) (cb : Block → Bool) (tr : TimeRange)
    (body : List Nat) (c : Counters) (p : PoolState) :
    (runBody D cb tr body c p).invocations =
      (processItems D cb tr (readLoop body c p).works (readLoop body c p).counters
        (readLoop body c p).pool).invocations := rfl

theorem runBody_pool (D : Decoder) (cb : Block → Bool) (tr : TimeRange)
    (body : List Nat) (c : Counters) (p : PoolState) :
    (runBody D cb tr body c p).pool =
      (processItems D cb tr (readLoop body c p).works (readLoop body c p).counters
        (readLoop body c p).pool).pool := rfl

theorem unmarshalInt64_take (s : List Nat) :
    unmarshalInt64 (s.take 8) = unmarshalInt64 s := by
  simp [unmarshalInt64, List.take_take]

theorem trOf_eq (s : List Nat) :
    trOf s = ⟨unmarshalInt64 s, unmarshalInt64 (s.drop 8)⟩ := by
  simp [trOf, unmarshalInt64_take]

theorem readRecord_classify (s : List Nat) (c : Counters) :
    ((readRecord s c).1 = RecResult.fatal FatalKind.streamRead ∧
     (readRecord s c).2.readErrors = c.readErrors + 1 ∧
     (readRecord s c).2.parseErrors = c.parseErrors) ∨
    (readRecord s c).2.readErrors = c.readErrors := by
  unfold readRecord
  dsimp only
  repeat' split
  all_goals first
    | exact Or.inr rfl
    | exact Or.inl ⟨rfl, rfl, rfl⟩

theorem length_filterMap_add {α β : Type} (f : α → Option β) (l : List α) :
    (l.filterMap f).length + (l.filter (fun x => (f x).isNone)).length = l.length := by
  induction l with
  | nil => rfl
  | cons x xs ih =>
    cases hf : f x <;>
      simp [List.filterMap_cons, hf, List.filter_cons] <;>
      omega

/-- C1: for every stream, a clean end-of-stream exactly at the first 4-byte
length read of a new record makes `ParseStream` return success (`none`), while
a clean end-of-stream anywhere else inside a record — mid length field, mid
metric-name payload, at the second (block-data) length field, or mid
block-data payload — makes it return a fatal stream-read error. -/
theorem native_c1_eof_policy (D : Decoder) (cb : Block → Bool) (hdr body : List Nat)
    (c : Counters) (p : PoolState) (hh : hdr.length = 16) :
    (body = [] → (parseStream D cb (hdr ++ body) c p).res = none) ∧
    (body ≠ [] → body.length < 4 →
      (parseStream D cb (hdr ++ body) c p).res = some FatalKind.streamRead) ∧
    (4 ≤ body.length → unmarshalUint32 body ≤ 1024 * 1024 →
      body.length < 4 + unmarshalUint32 body →
      (parseStream D cb (hdr ++ body) c p).res = some FatalKind.streamRead) ∧
    (4 ≤ body.length → unmarshalUint32 body ≤ 1024 * 1024 →
      4 + unmarshalUint32 body ≤ body.length →
      body.length < 4 + unmarshalUint32 body + 4 →
      (parseStream D cb (hdr ++ body) c p).res = some FatalKind.streamRead) ∧
    (4 ≤ body.length → unmarshalUint32 body ≤ 1024 * 1024 →
      4 + unmarshalUint32 body + 4 ≤ body.length →
      unmarshalUint32 (body.drop (4 + unmarshalUint32 body)) ≤ 1024 * 1024 →
      body.length < 4 + unmarshalUint32 body + 4 +
        unmarshalUint32 (body.drop (4 + unmarshalUint32 body)) →
      (parseStream D cb (hdr ++ body) c p).res = some FatalKind.streamRead) := by
  have h16 : 16 ≤ (hdr ++ body).length := by
    simp [List.length_append]
    omega
  have hdrop : (hdr ++ body).drop 16 = body := List.drop_left' hh
  have hres : (parseStream D cb (hdr ++ body) c p).res = (readLoop body c p).res := by
    rw [parseStream_ok D cb c p h16, runBody_res, hdrop]
  refine ⟨?_, ?_, ?_, ?_, ?_⟩
  · intro h
    subst h
    rw [hres, readLoop_done p (readRecord_nil c)]
  · intro h0 h4
    rw [hres, readLoop_fatal p (readRecord_short c h0 h4)]
  · intro h4 hL ht
    rw [hres, readLoop_fatal p (readRecord_trunc_name c h4 hL ht)]
  · intro h4 hL hfit ht
    rw [hres, readLoop_fatal p (readRecord_trunc_size2 c h4 hL hfit ht)]
  · intro h4 hL hfit hL2 ht
    rw [hres, readLoop_fatal p (readRecord_trunc_block c h4 hL hfit hL2 ht)]

/-- Witness for C1: concrete streams realising each end-of-stream position —
empty body (success), one byte of a length field, a truncated metric-name
payload, a missing second length field, and a truncated block payload. -/
theorem native_c1_eof_policy_witness :
    (parseStream D0 cbT (hdr0 ++ []) c0 p0).res = none ∧
    (parseStream D0 cbT (hdr0 ++ [0]) c0 p0).res = some FatalKind.streamRead ∧
    (parseStream D0 cbT (hdr0 ++ [0, 0, 0, 5]) c0 p0).res = some FatalKind.streamRead ∧
    (parseStream D0 cbT (hdr0 ++ [0, 0, 0, 0]) c0 p0).res = some FatalKind.streamRead ∧
    (parseStream D0 cbT (hdr0 ++ [0, 0, 0, 0, 0, 0, 0, 2, 9]) c0 p0).res =
      some FatalKind.streamRead :=
  ⟨(native_c1_eof_policy D0 cbT hdr0 [] c0 p0 (by decide)).1 rfl,
   (native_c1_eof_policy D0 cbT hdr0 [0] c0 p0 (by decide)).2.1 (by decide) (by decide),
   (native_c1_eof_policy D0 cbT hdr0 [0, 0, 0, 5] c0 p0 (by decide)).2.2.1
     (by decide) (by decide) (by decide),
   (native_c1_eof_policy D0 cbT hdr0 [0, 0, 0, 0] c0 p0 (by decide)).2.2.2.1
     (by decide) (by decide) (by decide) (by decide),
   (native_c1_eof_policy D0 cbT hdr0 [0, 0, 0, 0, 0, 0, 0, 2, 9] c0 p0 (by decide)).2.2.2.2
     (by decide) (by decide) (by decide) (by decide) (by decide)⟩

/-- C2: a declared frame length above 1,048,576 bytes (metric-name or
block-data) makes `ParseStream` return a fatal protocol-limit error at once:
the offending record is never enqueued (the enqueued work items are exactly
the preceding well-formed records) and no further frames are processed; a
declared length of exactly 1,048,576 is accepted and the record enqueued. -/
theorem native_c2_size_limit (D : Decoder) (cb : Block → Bool) (hdr : List Nat)
    (ps : List (List Nat × List Nat)) (body nb bb : List Nat)
    (c : Counters) (p : PoolState) (hh : hdr.length = 16) (hreset : allReset p)
    (hps : ∀ pr ∈ ps, pr.1.length ≤ 1024 * 1024 ∧ pr.2.length ≤ 1024 * 1024) :
    (4 ≤ body.length → 1024 * 1024 < unmarshalUint32 body →
      (parseStream D cb (hdr ++ (encodeRecords ps ++ body)) c p).res =
        some FatalKind.protocolLimit ∧
      (readLoop (encodeRecords ps ++ body) c p).works =
        ps.map (fun pr => (⟨pr.1, pr.2, ⟨[], []⟩⟩ : UnmarshalWork))) ∧
    (4 ≤ body.length → unmarshalUint32 body ≤ 1024 * 1024 →
      4 + unmarshalUint32 body + 4 ≤ body.length →
      1024 * 1024 < unmarshalUint32 (body.drop (4 + unmarshalUint32 body)) →
      (parseStream D cb (hdr ++ (encodeRecords ps ++ body)) c p).res =
        some FatalKind.protocolLimit ∧
      (readLoop (encodeRecords ps ++ body) c p).works =
        ps.map (fun pr => (⟨pr.1, pr.2, ⟨[], []⟩⟩ : UnmarshalWork))) ∧
    (nb.length = 1024 * 1024 → bb.length ≤ 1024 * 1024 →
      (readLoop (encodeRecord nb bb ++ body) c p).works =
        ⟨nb, bb, ⟨[], []⟩⟩ :: (readLoop body (bumpRecord c) (dropPool p 1)).works) := by
  have h16 : 16 ≤ (hdr ++ (encodeRecords ps ++ body)).length := by
    simp [List.length_append]
    omega
  have hdrop : (hdr ++ (encodeRecords ps ++ body)).drop 16 = encodeRecords ps ++ body :=
    List.drop_left' hh
  have hres : (parseStream D cb (hdr ++ (encodeRecords ps ++ body)) c p).res =
      (readLoop (encodeRecords ps ++ body) c p).res := by
    rw [parseStream_ok D cb c p h16, runBody_res, hdrop]
  have houter := readLoop_encodeRecords ps body c p hps hreset
  refine ⟨?_, ?_, ?_⟩
  · intro h4 hL
    have hinner := readLoop_fatal (dropPool p ps.length)
      (readRecord_oversize1 (bumpRecord^[ps.length] c) h4 hL)
    constructor
    · rw [hres, houter]
      show (readLoop body (bumpRecord^[ps.length] c) (dropPool p ps.length)).res = _
      rw [hinner]
    · rw [houter]
      show ps.map _ ++ (readLoop body (bumpRecord^[ps.length] c) (dropPool p ps.length)).works = _
      rw [hinner]
      simp
  · intro h4 hL hfit hL2
    have hinner := readLoop_fatal (dropPool p ps.length)
      (readRecord_oversize2 (bumpRecord^[ps.length] c) h4 hL hfit hL2)
    constructor
    · rw [hres, houter]
      show (readLoop body (bumpRecord^[ps.length] c) (dropPool p ps.length)).res = _
      rw [hinner]
    · rw [houter]
      show ps.map _ ++ (readLoop body (bumpRecord^[ps.length] c) (dropPool p ps.length)).works = _
      rw [hinner]
      simp
  · intro hn hb
    rw [readLoop_record nb bb body c p (by omega) hb]
    rw [getUnmarshalWork_block hreset]

/-- Witness for C2: a first-frame length of 1,048,577 and a block-frame
length of 1,048,577 are fatal with nothing enqueued, while a metric-name
frame of exactly 1,048,576 bytes is enqueued. -/
theorem native_c2_size_limit_witness :
    ((parseStream D0 cbT (hdr0 ++ (encodeRecords [] ++ [0, 16, 0, 1])) c0 p0).res =
        some FatalKind.protocolLimit ∧
      (readLoop (encodeRecords [] ++ [0, 16, 0, 1]) c0 p0).works = []) ∧
    ((parseStream D0 cbT (hdr0 ++ (encodeRecords [] ++ [0, 0, 0, 0, 0, 16, 0, 1])) c0 p0).res =
        some FatalKind.protocolLimit ∧
      (readLoop (encodeRecords [] ++ [0, 0, 0, 0, 0, 16, 0, 1]) c0 p0).works = []) ∧
    (readLoop (encodeRecord (List.replicate (1024 * 1024) 0) [] ++ []) c0 p0).works =
      ⟨List.replicate (1024 * 1024) 0, [], ⟨[], []⟩⟩ ::
        (readLoop [] (bumpRecord c0) (dropPool p0 1)).works := by
  have h1 := (native_c2_size_limit D0 cbT hdr0 [] [0, 16, 0, 1]
    (List.replicate (1024 * 1024) 0) [] c0 p0 (by decide)
    (by intro w hw; cases hw) (by intro pr hpr; cases hpr)).1 (by decide) (by decide)
  have h2 := (native_c2_size_limit D0 cbT hdr0 [] [0, 0, 0, 0, 0, 16, 0, 1]
    (List.replicate (1024 * 1024) 0) [] c0 p0 (by decide)
    (by intro w hw; cases hw) (by intro pr hpr; cases hpr)).2.1
    (by decide) (by decide) (by decide) (by decide)
  have h3 := (native_c2_size_limit D0 cbT hdr0 [] []
    (List.replicate (1024 * 1024) 0) [] c0 p0 (by decide)
    (by intro w hw; cases hw) (by intro pr hpr; cases hpr)).2.2
    (by rw [List.length_replicate]) (by decide)
  exact ⟨⟨h1.1, by rw [h1.2]; rfl⟩, ⟨h2.1, by rw [h2.2]; rfl⟩, h3⟩

/-- C3 counterexample: on a stream holding only the 16-byte header, the
reader acquires one work item from the pool before hitting the clean
end-of-stream, and that item is never returned — after the call one item was
acquired and none released, refuting the claim that every acquired item is
returned to the pool before the call completes. -/
theorem native_c3_pool_counterexample :
    (parseStream D0 cbT hdr0 c0 p0).pool.acquired = 1 ∧
    (parseStream D0 cbT hdr0 c0 p0).pool.released = 0 ∧
    ¬ ((parseStream D0 cbT hdr0 c0 p0).pool.acquired =
        (parseStream D0 cbT hdr0 c0 p0).pool.released) := by
  refine ⟨?_, ?_, ?_⟩ <;> decide

/-- C3 (amended): on every exit path taken after a successful header read,
every work item that was enqueued to the work queue is reset and returned to
the pool before the call completes (the release count grows by exactly the
number of enqueued items, and every pooled item is reset), but the work item
the reader acquired for the record in progress at termination is not
returned: the number of acquisitions always exceeds the number of releases
by exactly one. -/
theorem native_c3_pool_amended (D : Decoder) (cb : Block → Bool) (s : List Nat)
    (c : Counters) (p : PoolState) (h16 : 16 ≤ s.length)
    (hbal : p.acquired = p.released) (hreset : allReset p) :
    (parseStream D cb s c p).pool.acquired = (parseStream D cb s c p).pool.released + 1 ∧
    (parseStream D cb s c p).pool.released =
      p.released + (readLoop (s.drop 16) c p).works.length ∧
    allReset (parseStream D cb s c p).pool := by
  rw [parseStream_ok D cb c p h16, runBody_pool]
  obtain ⟨ra, rr, rs⟩ := readLoop_pool (s.drop 16) c p
  obtain ⟨pa, pb, pc⟩ := processItems_pool D cb (trOf s) (readLoop (s.drop 16) c p).works
    (readLoop (s.drop 16) c p).counters (readLoop (s.drop 16) c p).pool
  refine ⟨?_, ?_, ?_⟩
  · rw [pa, pb, ra, rr]
    omega
  · rw [pa, rr]
  · exact pc (rs hreset)

/-- Witness for the amended C3 at a concrete stream: the header-only stream
ends with one more acquisition than releases and an all-reset pool. -/
theorem native_c3_pool_amended_witness :
    (parseStream D0 cbT hdr0 c0 p0).pool.acquired =
      (parseStream D0 cbT hdr0 c0 p0).pool.released + 1 ∧
    (parseStream D0 cbT hdr0 c0 p0).pool.released =
      p0.released + (readLoop (hdr0.drop 16) c0 p0).works.length ∧
    allReset (parseStream D0 cbT hdr0 c0 p0).pool :=
  native_c3_pool_amended D0 cbT hdr0 c0 p0 (by decide) rfl (by intro w hw; cases hw)

/-- C4: for every valid stream (well-formed header and framing, clean
end-of-stream on a record boundary) the call succeeds, the number of
sink-callback invocations equals the number of frame-pairs minus the number
of frame-pairs whose decode step fails, and the invocation list does not
depend on the callback's outcomes — a failing callback still counts and
suppresses nothing. -/
theorem native_c4_callback_count (D : Decoder) (cb cb2 : Block → Bool) (hdr : List Nat)
    (ps : List (List Nat × List Nat)) (c : Counters) (p : PoolState)
    (hh : hdr.length = 16) (hreset : allReset p)
    (hps : ∀ pr ∈ ps, pr.1.length ≤ 1024 * 1024 ∧ pr.2.length ≤ 1024 * 1024) :
    (parseStream D cb (hdr ++ encodeRecords ps) c p).res = none ∧
    (parseStream D cb (hdr ++ encodeRecords ps) c p).invocations.length =
      ps.length - (ps.filter (fun pr =>
        (unmarshal D (trOf (hdr ++ encodeRecords ps)) pr.1 pr.2).isNone)).length ∧
    (parseStream D cb (hdr ++ encodeRecords ps) c p).invocations =
      (parseStream D cb2 (hdr ++ encodeRecords ps) c p).invocations := by
  have h16 : 16 ≤ (hdr ++ encodeRecords ps).length := by
    simp [List.length_append]
    omega
  have hdrop : (hdr ++ encodeRecords ps).drop 16 = encodeRecords ps := List.drop_left' hh
  have houter := readLoop_encodeRecords ps [] c p hps hreset
  rw [List.append_nil] at houter
  have hnil := readLoop_done (dropPool p ps.length) (readRecord_nil (bumpRecord^[ps.length] c))
  have hinv : ∀ cb3 : Block → Bool,
      (parseStream D cb3 (hdr ++ encodeRecords ps) c p).invocations =
        ps.filterMap (fun pr =>
          unmarshal D (trOf (hdr ++ encodeRecords ps)) pr.1 pr.2) := by
    intro cb3
    rw [parseStream_ok D cb3 c p h16, runBody_invocations, hdrop, houter,
      processItems_invocations, hnil]
    simp only [List.append_nil, List.filterMap_map]
    rfl
  refine ⟨?_, ?_, ?_⟩
  · rw [parseStream_ok D cb c p h16, runBody_res, hdrop, houter]
    show (readLoop [] (bumpRecord^[ps.length] c) (dropPool p ps.length)).res = none
    rw [hnil]
  · rw [hinv cb]
    have := length_filterMap_add
      (fun pr : List Nat × List Nat =>
        unmarshal D (trOf (hdr ++ encodeRecords ps)) pr.1 pr.2) ps
    omega
  · rw [hinv cb, hinv cb2]

/-- Witness for C4: two valid frame-pairs and an always-succeeding decoder
give exactly two invocations, with identical invocation lists under an
always-accepting and an always-rejecting callback. -/
theorem native_c4_callback_count_witness :
    (parseStream D0 cbT (hdr0 ++ encodeRecords ps4) c0 p0).res = none ∧
    (parseStream D0 cbT (hdr0 ++ encodeRecords ps4) c0 p0).invocations.length =
      ps4.length - (ps4.filter (fun pr =>
        (unmarshal D0 (trOf (hdr0 ++ encodeRecords ps4)) pr.1 pr.2).isNone)).length ∧
    (parseStream D0 cbT (hdr0 ++ encodeRecords ps4) c0 p0).invocations =
      (parseStream D0 cbF (hdr0 ++ encodeRecords ps4) c0 p0).invocations :=
  native_c4_callback_count D0 cbT cbF hdr0 ps4 c0 p0 (by decide)
    (by intro w hw; cases hw) (by decide)

/-- C5: every row of every block handed to the sink callback has a timestamp
within the stream's inclusive time range, and when the block payload decodes
cleanly the resulting block contains exactly the decoded rows whose timestamp
lies in the range — out-of-range rows are dropped silently (the decode still
succeeds) and never reach the callback. -/
theorem native_c5_time_filter :
    (∀ (D : Decoder) (cb : Block → Bool) (s : List Nat) (c : Counters) (p : PoolState)
        (b : Block) (r : Int × Nat),
      b ∈ (parseStream D cb s c p).invocations → r ∈ b.rows →
      (trOf s).minTimestamp ≤ r.1 ∧ r.1 ≤ (trOf s).maxTimestamp) ∧
    (∀ (D : Decoder) (tr : TimeRange) (nb bb mn : List Nat) (rows : List (Int × Nat)),
      D.unmarshalMetricName nb = some mn →
      D.unmarshalPortable bb = some (rows, []) →
      unmarshal D tr nb bb = some ⟨mn, rows.filter fun r =>
        decide (tr.minTimestamp ≤ r.1) && decide (r.1 ≤ tr.maxTimestamp)⟩) := by
  constructor
  · intro D cb s c p b r hb hr
    by_cases h16 : 16 ≤ s.length
    · rw [parseStream_ok D cb c p h16, runBody_invocations, processItems_invocations] at hb
      obtain ⟨w, -, hw⟩ := List.mem_filterMap.mp hb
      exact unmarshal_some_rows hw r hr
    · rw [parseStream_short D cb c p (by omega)] at hb
      cases hb
  · intro D tr nb bb mn rows hm hp
    exact unmarshal_eq_filter tr hm hp

/-- Witness for C5: with range [1000, 2000] and decoded rows at timestamps
900, 1500 and 2500, the block that reaches the callback holds only the row
at 1500, and its timestamp satisfies both inclusive bounds. -/
theorem native_c5_time_filter_witness :
    ((trOf s5).minTimestamp ≤ (1500 : Int) ∧ (1500 : Int) ≤ (trOf s5).maxTimestamp) ∧
    unmarshal Dtriple ⟨1000, 2000⟩ [99] [1] =
      some ⟨[99], [(900, 1), (1500, 2), (2500, 3)].filter fun r =>
        decide ((1000 : Int) ≤ r.1) && decide (r.1 ≤ (2000 : Int))⟩ :=
  ⟨native_c5_time_filter.1 Dtriple cbT s5 c0 p0 ⟨[99], [(1500, 2)]⟩ (1500, 2)
      (by decide) (by decide),
   native_c5_time_filter.2 Dtriple ⟨1000, 2000⟩ [99] [1] [99]
      [(900, 1), (1500, 2), (2500, 3)] rfl rfl⟩

/-- C7: the call reads exactly 16 header bytes before any frame — fewer than
16 available bytes (including a completely empty stream) is a fatal
stream-read error with the read-error counter incremented and nothing
processed — and on success the first 8 bytes decode to the minimum
timestamp, the next 8 to the maximum, and that time range drives the rest of
the call on the remaining bytes. -/
theorem native_c7_header (D : Decoder) (cb : Block → Bool) (s : List Nat)
    (c : Counters) (p : PoolState) :
    (s.length < 16 →
      parseStream D cb s c p = ⟨some FatalKind.streamRead, [], c.incReadErrors, p⟩) ∧
    (16 ≤ s.length →
      parseStream D cb s c p =
        runBody D cb ⟨unmarshalInt64 s, unmarshalInt64 (s.drop 8)⟩ (s.drop 16) c p) := by
  constructor
  · intro h
    exact parseStream_short D cb c p h
  · intro h
    rw [parseStream_ok D cb c p h, trOf_eq]

/-- Witness for C7: the empty stream fails with a stream-read error, and the
[1000, 2000] header stream proceeds with exactly that decoded range. -/
theorem native_c7_header_witness :
    parseStream D0 cbT [] c0 p0 = ⟨some FatalKind.streamRead, [], c0.incReadErrors, p0⟩ ∧
    parseStream D0 cbT hdrR c0 p0 =
      runBody D0 cbT ⟨unmarshalInt64 hdrR, unmarshalInt64 (hdrR.drop 8)⟩
        (hdrR.drop 16) c0 p0 :=
  ⟨(native_c7_header D0 cbT [] c0 p0).1 (by decide),
   (native_c7_header D0 cbT hdrR c0 p0).2 (by decide)⟩

/-- C8: a record whose block-data payload parses structurally but leaves
unconsumed trailing bytes fails decoding non-fatally: the worker increments
the parse-error counter, skips the callback, resets the work item and
returns it to the pool, and goes on processing the remaining items. -/
theorem native_c8_trailing_tail (D : Decoder) (cb : Block → Bool) (tr : TimeRange)
    (uw : UnmarshalWork) (rest : List UnmarshalWork) (c : Counters) (p : PoolState)
    (mn : List Nat) (rows : List (Int × Nat)) (tail : List Nat)
    (hm : D.unmarshalMetricName uw.metricNameBuf = some mn)
    (hp : D.unmarshalPortable uw.blockBuf = some (rows, tail))
    (ht : tail ≠ []) :
    unmarshal D tr uw.metricNameBuf uw.blockBuf = none ∧
    processItems D cb tr (uw :: rest) c p =
      processItems D cb tr rest c.incParseErrors (putUnmarshalWork uw p) := by
  have hu := unmarshal_none_of_tail tr hm hp ht
  exact ⟨hu, by simp only [processItems, hu]⟩

/-- Witness for C8: a decoder that leaves a one-byte tail makes the sole
queued record fail non-fatally, with the counter bumped and the item pooled. -/
theorem native_c8_trailing_tail_witness :
    unmarshal Dtail ⟨0, 0⟩ [5] [6] = none ∧
    processItems Dtail cbT ⟨0, 0⟩ [⟨[5], [6], ⟨[], []⟩⟩] c0 p0 =
      processItems Dtail cbT ⟨0, 0⟩ [] c0.incParseErrors
        (putUnmarshalWork ⟨[5], [6], ⟨[], []⟩⟩ p0) :=
  native_c8_trailing_tail Dtail cbT ⟨0, 0⟩ ⟨[5], [6], ⟨[], []⟩⟩ [] c0 p0
    [5] [] [7] rfl rfl (by decide)

/-- C9: a declared frame length of zero is valid framing — a record whose
metric-name frame or block-data frame declares length zero is read without
error, the empty payload is stored, and the work item is enqueued; by itself
a zero-length frame never produces a stream-read or protocol-limit error. -/
theorem native_c9_zero_length (nb bb tail2 : List Nat) (c : Counters) (p : PoolState)
    (h1 : bb.length ≤ 1024 * 1024) (h2 : nb.length ≤ 1024 * 1024)
    (hreset : allReset p) :
    ((readLoop (encodeRecord [] bb ++ tail2) c p).works =
      ⟨[], bb, ⟨[], []⟩⟩ :: (readLoop tail2 (bumpRecord c) (dropPool p 1)).works ∧
     (readLoop (encodeRecord [] bb ++ tail2) c p).res =
      (readLoop tail2 (bumpRecord c) (dropPool p 1)).res) ∧
    ((readLoop (encodeRecord nb [] ++ tail2) c p).works =
      ⟨nb, [], ⟨[], []⟩⟩ :: (readLoop tail2 (bumpRecord c) (dropPool p 1)).works ∧
     (readLoop (encodeRecord nb [] ++ tail2) c p).res =
      (readLoop tail2 (bumpRecord c) (dropPool p 1)).res) := by
  have hz : ([] : List Nat).length ≤ 1024 * 1024 := by simp
  constructor
  · rw [readLoop_record [] bb tail2 c p hz h1, getUnmarshalWork_block hreset]
    exact ⟨rfl, rfl⟩
  · rw [readLoop_record nb [] tail2 c p h2 hz, getUnmarshalWork_block hreset]
    exact ⟨rfl, rfl⟩

/-- Witness for C9: a zero-length metric-name frame and a zero-length
block-data frame are both enqueued without error. -/
theorem native_c9_zero_length_witness :
    ((readLoop (encodeRecord [] [3] ++ []) c0 p0).works =
      ⟨[], [3], ⟨[], []⟩⟩ :: (readLoop [] (bumpRecord c0) (dropPool p0 1)).works ∧
     (readLoop (encodeRecord [] [3] ++ []) c0 p0).res =
      (readLoop [] (bumpRecord c0) (dropPool p0 1)).res) ∧
    ((readLoop (encodeRecord [4] [] ++ []) c0 p0).works =
      ⟨[4], [], ⟨[], []⟩⟩ :: (readLoop [] (bumpRecord c0) (dropPool p0 1)).works ∧
     (readLoop (encodeRecord [4] [] ++ []) c0 p0).res =
      (readLoop [] (bumpRecord c0) (dropPool p0 1)).res) :=
  native_c9_zero_length [4] [3] [] c0 p0 (by decide) (by decide)
    (by intro w hw; cases hw)

/-- C10: an oversized declared frame length (first or second frame)
increments the parse-error counter — not the read-error counter — exactly
once while producing the fatal protocol-limit result, and the read-error
counter moves in a record read only when the result is a fatal stream-read
(truncation) error, in which case it is incremented exactly once and the
parse-error counter is untouched. -/
theorem native_c10_counter_discipline (s : List Nat) (c : Counters) :
    (4 ≤ s.length → 1024 * 1024 < unmarshalUint32 s →
      (readRecord s c).1 = RecResult.fatal FatalKind.protocolLimit ∧
      (readRecord s c).2.parseErrors = c.parseErrors + 1 ∧
      (readRecord s c).2.readErrors = c.readErrors) ∧
    (4 ≤ s.length → unmarshalUint32 s ≤ 1024 * 1024 →
      4 + unmarshalUint32 s + 4 ≤ s.length →
      1024 * 1024 < unmarshalUint32 (s.drop (4 + unmarshalUint32 s)) →
      (readRecord s c).1 = RecResult.fatal FatalKind.protocolLimit ∧
      (readRecord s c).2.parseErrors = c.parseErrors + 1 ∧
      (readRecord s c).2.readErrors = c.readErrors) ∧
    ((readRecord s c).2.readErrors ≠ c.readErrors →
      (readRecord s c).1 = RecResult.fatal FatalKind.streamRead ∧
      (readRecord s c).2.readErrors = c.readErrors + 1 ∧
      (readRecord s c).2.parseErrors = c.parseErrors) := by
  refine ⟨?_, ?_, ?_⟩
  · intro h4 hL
    rw [readRecord_oversize1 c h4 hL]
    exact ⟨rfl, rfl, rfl⟩
  · intro h4 hL hfit hL2
    rw [readRecord_oversize2 c h4 hL hfit hL2]
    exact ⟨rfl, rfl, rfl⟩
  · intro hne
    rcases readRecord_classify s c with ⟨g1, g2, g3⟩ | g
    · exact ⟨g1, g2, g3⟩
    · exact absurd g hne

/-- Witness for C10: an oversized first length, an oversized second length,
and a one-byte truncated record exercise all three counter rules. -/
theorem native_c10_counter_discipline_witness :
    ((readRecord [0, 16, 0, 1] c0).1 = RecResult.fatal FatalKind.protocolLimit ∧
     (readRecord [0, 16, 0, 1] c0).2.parseErrors = c0.parseErrors + 1 ∧
     (readRecord [0, 16, 0, 1] c0).2.readErrors = c0.readErrors) ∧
    ((readRecord [0, 0, 0, 0, 0, 16, 0, 1] c0).1 =
        RecResult.fatal FatalKind.protocolLimit ∧
     (readRecord [0, 0, 0, 0, 0, 16, 0, 1] c0).2.parseErrors = c0.parseErrors + 1 ∧
     (readRecord [0, 0, 0, 0, 0, 16, 0, 1] c0).2.readErrors = c0.readErrors) ∧
    ((readRecord [1] c0).1 = RecResult.fatal FatalKind.streamRead ∧
     (readRecord [1] c0).2.readErrors = c0.readErrors + 1 ∧
     (readRecord [1] c0).2.parseErrors = c0.parseErrors) :=
  ⟨(native_c10_counter_discipline [0, 16, 0, 1] c0).1 (by decide) (by decide),
   (native_c10_counter_discipline [0, 0, 0, 0, 0, 16, 0, 1] c0).2.1
     (by decide) (by decide) (by decide) (by decide),
   (native_c10_counter_discipline [1] c0).2.2 (by decide)⟩

end Native
